import Mathlib

/-
Verification of the interaction HandlerManager (ui/handler_manager.js).

Shallow embedding conventions:
* JS `undefined` / missing optional fields are modelled with `Option`
  (`none` = absent).  The `around` / `pinchAround` fields can additionally
  be explicitly `null` in the source, which is distinct from `undefined`
  there (`!== undefined` checks); they are therefore modelled as
  `Option (Option Point)` with `some none` = explicit `null`.
* JS truthiness of a number is `≠ 0`; a JS object (e.g. a `Point`) is
  always truthy; `undefined`/`null` are falsy.
* Events are identified abstractly by natural numbers.
* Scalars use `ℚ` (the source uses JS numbers; no floating-point
  behaviour is at issue in the claims, which are algebraic).
-/

/-- Screen/world point (mapbox Point has numeric `x`, `y`). -/
structure Point where
  x : ℚ
  y : ℚ
deriving DecidableEq

def Point.zero : Point := ⟨0, 0⟩

/-- Point.add (the source's `_add`, value-wise). -/
def Point.add (p q : Point) : Point := ⟨p.x + q.x, p.y + q.y⟩

/-- Point.sub (the source's `sub`). -/
def Point.sub (p q : Point) : Point := ⟨p.x - q.x, p.y - q.y⟩

/-- HandlerResult: all fields optional, as in the source flow type. -/
structure HandlerResult where
  panDelta : Option Point := none
  zoomDelta : Option ℚ := none
  bearingDelta : Option ℚ := none
  pitchDelta : Option ℚ := none
  around : Option (Option Point) := none
  pinchAround : Option (Option Point) := none
  originalEvent : Option ℕ := none
  needsRenderFrame : Option Bool := none
  noInertia : Option Bool := none
deriving DecidableEq

/-- JS truthiness of an optional number: present and nonzero. -/
def truthyQ (o : Option ℚ) : Bool :=
  match o with
  | some z => decide (z ≠ 0)
  | none => false

/-- hasChange(result): `(result.panDelta && result.panDelta.mag()) ||
result.zoomDelta || result.bearingDelta || result.pitchDelta`.
`mag()` of a point is truthy iff the point is nonzero. -/
def hasChange (r : HandlerResult) : Bool :=
  (match r.panDelta with
   | some d => decide (d ≠ Point.zero)
   | none => false)
  || truthyQ r.zoomDelta
  || truthyQ r.bearingDelta
  || truthyQ r.pitchDelta

/-- HandlerManager._blockedByActive(activeHandlers, allowed, myName):
loops over the names of the active-handler map and returns true on the
first name other than `myName` that the allow-list does not contain
(an undefined allow-list, modelled `none`, admits nothing). -/
def blockedByActive (activeHandlers : List String)
    (allowed : Option (List String)) (myName : String) : Bool :=
  activeHandlers.any fun name =>
    decide (name ≠ myName) &&
      (match allowed with
       | none => true
       | some l => !(l.contains name))

/-- C4: Blocking decision — for every map of currently active handlers, every
allow-list, and every candidate handler name, the blocking predicate returns
true if and only if some handler name in the active map other than the
candidate is absent from the allow-list. -/
theorem blockedByActive_iff_exists_disallowed (active : List String)
    (l : List String) (myName : String) :
    blockedByActive active (some l) myName = true ↔
      ∃ n ∈ active, n ≠ myName ∧ n ∉ l := by
  simp [blockedByActive, List.any_eq_true]

/-- C10: with an undefined allow-list the predicate blocks iff some other
handler is active; a handler is never blocked by itself alone, nor when the
active map is empty (for any allow-list). -/
theorem blockedByActive_none_iff_other_active (active : List String)
    (myName : String) :
    (blockedByActive active none myName = true ↔ ∃ n ∈ active, n ≠ myName)
    ∧ (∀ k : ℕ, blockedByActive (List.replicate k myName) none myName = false)
    ∧ (∀ allowed : Option (List String),
        blockedByActive [] allowed myName = false) := by
  refine ⟨?_, ?_, ?_⟩
  · simp [blockedByActive, List.any_eq_true]
  · intro k
    simp [blockedByActive, List.any_eq_true]
  · intro allowed
    simp [blockedByActive]

/-- Ownership record stored in the events-in-progress map:
`{handlerName, originalEvent}`. -/
structure EventData where
  handlerName : String
  originalEvent : Option ℕ
deriving DecidableEq

/-- The events-in-progress map: one slot per gesture category
(zoom / drag / pitch / rotate), as built by mergeHandlerResult. -/
structure EventsInProgress where
  zoom : Option EventData := none
  drag : Option EventData := none
  pitch : Option EventData := none
  rotate : Option EventData := none
deriving DecidableEq

/-- One JS object field under `extend(dest, src)`: a field present on the
source overwrites the destination's. -/
def jsOverride {α : Type} (dest src : Option α) : Option α :=
  match src with
  | some v => some v
  | none => dest

/-- util extend(dest, src) specialised to HandlerResult: field-by-field
shallow overwrite. -/
def extendResult (dest src : HandlerResult) : HandlerResult where
  panDelta := jsOverride dest.panDelta src.panDelta
  zoomDelta := jsOverride dest.zoomDelta src.zoomDelta
  bearingDelta := jsOverride dest.bearingDelta src.bearingDelta
  pitchDelta := jsOverride dest.pitchDelta src.pitchDelta
  around := jsOverride dest.around src.around
  pinchAround := jsOverride dest.pinchAround src.pinchAround
  originalEvent := jsOverride dest.originalEvent src.originalEvent
  needsRenderFrame := jsOverride dest.needsRenderFrame src.needsRenderFrame
  noInertia := jsOverride dest.noInertia src.noInertia

/-- The eventData built by mergeHandlerResult:
`{handlerName: name, originalEvent: handlerResult.originalEvent || e}`. -/
def eventDataOf (name : String) (r : HandlerResult) (e : Option ℕ) : EventData :=
  ⟨name, match r.originalEvent with
         | some ev => some ev
         | none => e⟩

/-- HandlerManager.mergeHandlerResult: returns the updated merged result and
events-in-progress map.  A `none` handler result leaves both untouched
(the source's early return); otherwise the merged result is extended with
the handler result's fields and, for each of the four delta fields present
(`!== undefined`), the corresponding gesture category records the handler. -/
def mergeHandlerResult (merged : HandlerResult) (eip : EventsInProgress)
    (handlerResult : Option HandlerResult) (name : String) (e : Option ℕ) :
    HandlerResult × EventsInProgress :=
  match handlerResult with
  | none => (merged, eip)
  | some r =>
    let merged' := extendResult merged r
    let eventData := eventDataOf name r e
    let eip' : EventsInProgress :=
      { zoom := if r.zoomDelta.isSome then some eventData else eip.zoom
        drag := if r.panDelta.isSome then some eventData else eip.drag
        pitch := if r.pitchDelta.isSome then some eventData else eip.pitch
        rotate := if r.bearingDelta.isSome then some eventData else eip.rotate }
    (merged', eip')

/-- Folding mergeHandlerResult over the results returned by successive
handlers within one dispatch, in registration order (the loop body of
_processInputEvent). -/
def mergeAll (merged : HandlerResult) (eip : EventsInProgress)
    (results : List (String × HandlerResult)) (e : Option ℕ) :
    HandlerResult × EventsInProgress :=
  match results with
  | [] => (merged, eip)
  | x :: rest =>
    let step := mergeHandlerResult merged eip (some x.2) x.1 e
    mergeAll step.1 step.2 rest e

/-- The last defined value in a sequence of optional values (the value a
chain of "overwrite if present" assignments leaves behind). -/
def lastSome {α : Type} : List (Option α) → Option α
  | [] => none
  | o :: t =>
    match lastSome t with
    | some v => some v
    | none => o

theorem jsOverride_eq_if {α : Type} (d s : Option α) :
    jsOverride d s = if s.isSome then s else d := by
  cases s <;> simp [jsOverride]

theorem jsOverride_lastSome_cons {α : Type} (d o : Option α)
    (t : List (Option α)) :
    jsOverride (jsOverride d o) (lastSome t) = jsOverride d (lastSome (o :: t)) := by
  simp only [lastSome]
  cases lastSome t <;> simp [jsOverride]

theorem mergeAll_field {α : Type} (f : HandlerResult → Option α)
    (hf : ∀ m r, f (extendResult m r) = jsOverride (f m) (f r)) :
    ∀ (rs : List (String × HandlerResult)) (m : HandlerResult)
      (eip : EventsInProgress) (e : Option ℕ),
      f (mergeAll m eip rs e).1 =
        jsOverride (f m) (lastSome (rs.map fun x => f x.2)) := by
  intro rs
  induction rs with
  | nil => intro m eip e; simp [mergeAll, jsOverride, lastSome]
  | cons x t ih =>
    intro m eip e
    simp only [mergeAll, mergeHandlerResult, List.map_cons]
    rw [ih, hf, jsOverride_lastSome_cons]

theorem mergeAll_ownership (g : EventsInProgress → Option EventData)
    (pres : HandlerResult → Bool)
    (hg : ∀ m eip r name e,
      g (mergeHandlerResult m eip (some r) name e).2 =
        jsOverride (g eip)
          (if pres r then some (eventDataOf name r e) else none)) :
    ∀ (rs : List (String × HandlerResult)) (m : HandlerResult)
      (eip : EventsInProgress) (e : Option ℕ),
      g (mergeAll m eip rs e).2 =
        jsOverride (g eip)
          (lastSome (rs.map fun x =>
            if pres x.2 then some (eventDataOf x.1 x.2 e) else none)) := by
  intro rs
  induction rs with
  | nil => intro m eip e; simp [mergeAll, jsOverride, lastSome]
  | cons x t ih =>
    intro m eip e
    simp only [mergeAll, List.map_cons]
    rw [ih, hg, jsOverride_lastSome_cons]

/-- C3: Within-dispatch merge — mergeHandlerResult shallow-overwrites the
fields of the merged result with the fields present in the handler result
(over a whole dispatch the last contributing handler in registration order
wins each field), and for each of the four delta fields present it records
the named handler as owner of the corresponding gesture category
(zoomDelta→zoom, panDelta→drag, pitchDelta→pitch, bearingDelta→rotate),
attaching the originating event. -/
theorem mergeHandlerResult_overwrites_and_records
    (m : HandlerResult) (eip : EventsInProgress) (r : HandlerResult)
    (name : String) (e : Option ℕ)
    (rs : List (String × HandlerResult)) :
    ((mergeHandlerResult m eip (some r) name e).1.panDelta
        = (if r.panDelta.isSome then r.panDelta else m.panDelta)
      ∧ (mergeHandlerResult m eip (some r) name e).1.zoomDelta
        = (if r.zoomDelta.isSome then r.zoomDelta else m.zoomDelta)
      ∧ (mergeHandlerResult m eip (some r) name e).1.bearingDelta
        = (if r.bearingDelta.isSome then r.bearingDelta else m.bearingDelta)
      ∧ (mergeHandlerResult m eip (some r) name e).1.pitchDelta
        = (if r.pitchDelta.isSome then r.pitchDelta else m.pitchDelta)
      ∧ (mergeHandlerResult m eip (some r) name e).1.around
        = (if r.around.isSome then r.around else m.around)
      ∧ (mergeHandlerResult m eip (some r) name e).1.pinchAround
        = (if r.pinchAround.isSome then r.pinchAround else m.pinchAround)
      ∧ (mergeHandlerResult m eip (some r) name e).1.originalEvent
        = (if r.originalEvent.isSome then r.originalEvent else m.originalEvent)
      ∧ (mergeHandlerResult m eip (some r) name e).1.noInertia
        = (if r.noInertia.isSome then r.noInertia else m.noInertia))
    ∧ ((mergeHandlerResult m eip (some r) name e).2.zoom
        = (if r.zoomDelta.isSome then some (eventDataOf name r e) else eip.zoom)
      ∧ (mergeHandlerResult m eip (some r) name e).2.drag
        = (if r.panDelta.isSome then some (eventDataOf name r e) else eip.drag)
      ∧ (mergeHandlerResult m eip (some r) name e).2.pitch
        = (if r.pitchDelta.isSome then some (eventDataOf name r e) else eip.pitch)
      ∧ (mergeHandlerResult m eip (some r) name e).2.rotate
        = (if r.bearingDelta.isSome then some (eventDataOf name r e) else eip.rotate))
    ∧ ((mergeAll m eip rs e).1.zoomDelta
        = jsOverride m.zoomDelta (lastSome (rs.map fun x => x.2.zoomDelta))
      ∧ (mergeAll m eip rs e).1.panDelta
        = jsOverride m.panDelta (lastSome (rs.map fun x => x.2.panDelta))
      ∧ (mergeAll m eip rs e).2.zoom
        = jsOverride eip.zoom (lastSome (rs.map fun x =>
            if x.2.zoomDelta.isSome then some (eventDataOf x.1 x.2 e) else none))
      ∧ (mergeAll m eip rs e).2.drag
        = jsOverride eip.drag (lastSome (rs.map fun x =>
            if x.2.panDelta.isSome then some (eventDataOf x.1 x.2 e) else none))) := by
  refine ⟨⟨?_, ?_, ?_, ?_, ?_, ?_, ?_, ?_⟩, ⟨?_, ?_, ?_, ?_⟩, ?_, ?_, ?_, ?_⟩
  · simp [mergeHandlerResult, extendResult, jsOverride_eq_if]
  · simp [mergeHandlerResult, extendResult, jsOverride_eq_if]
  · simp [mergeHandlerResult, extendResult, jsOverride_eq_if]
  · simp [mergeHandlerResult, extendResult, jsOverride_eq_if]
  · simp [mergeHandlerResult, extendResult, jsOverride_eq_if]
  · simp [mergeHandlerResult, extendResult, jsOverride_eq_if]
  · simp [mergeHandlerResult, extendResult, jsOverride_eq_if]
  · simp [mergeHandlerResult, extendResult, jsOverride_eq_if]
  · simp [mergeHandlerResult]
  · simp [mergeHandlerResult]
  · simp [mergeHandlerResult]
  · simp [mergeHandlerResult]
  · exact mergeAll_field (fun h => h.zoomDelta)
      (fun m r => by simp [extendResult]) rs m eip e
  · exact mergeAll_field (fun h => h.panDelta)
      (fun m r => by simp [extendResult]) rs m eip e
  · exact mergeAll_ownership (fun m => m.zoom) (fun r => r.zoomDelta.isSome)
      (fun m eip r name e => by
        by_cases h : r.zoomDelta.isSome <;>
          simp [mergeHandlerResult, jsOverride, h]) rs m eip e
  · exact mergeAll_ownership (fun m => m.drag) (fun r => r.panDelta.isSome)
      (fun m eip r name e => by
        by_cases h : r.panDelta.isSome <;>
          simp [mergeHandlerResult, jsOverride, h]) rs m eip e

/-- A queued pending change, as pushed by _processInputEvent:
the dispatch's merged result, its events-in-progress snapshot, and the
map of handlers that deactivated during the dispatch (name → the input
event, which may itself be undefined). -/
structure PendingChange where
  change : HandlerResult
  eventsInProgress : EventsInProgress
  deactivatedHandlers : List (String × Option ℕ)
deriving DecidableEq

/-- extend on events-in-progress objects (used for
combinedEventsInProgress). -/
def extendEip (dest src : EventsInProgress) : EventsInProgress where
  zoom := jsOverride dest.zoom src.zoom
  drag := jsOverride dest.drag src.drag
  pitch := jsOverride dest.pitch src.pitch
  rotate := jsOverride dest.rotate src.rotate

/-- The loop body of _applyChanges: accumulate one queued change into the
combined result/events-in-progress/deactivated-handlers accumulator.
Each delta is accumulated only when JS-truthy on the change (a number must
be nonzero, a Point object is always truthy); around/pinchAround are
overwritten when not undefined; noInertia is set when truthy. -/
def combineStep
    (acc : HandlerResult × EventsInProgress × List (String × Option ℕ))
    (c : PendingChange) :
    HandlerResult × EventsInProgress × List (String × Option ℕ) :=
  ({ acc.1 with
     panDelta :=
       match c.change.panDelta with
       | some d => some ((acc.1.panDelta.getD Point.zero).add d)
       | none => acc.1.panDelta
     zoomDelta :=
       match c.change.zoomDelta with
       | some z => if z = 0 then acc.1.zoomDelta
                   else some (acc.1.zoomDelta.getD 0 + z)
       | none => acc.1.zoomDelta
     bearingDelta :=
       match c.change.bearingDelta with
       | some z => if z = 0 then acc.1.bearingDelta
                   else some (acc.1.bearingDelta.getD 0 + z)
       | none => acc.1.bearingDelta
     pitchDelta :=
       match c.change.pitchDelta with
       | some z => if z = 0 then acc.1.pitchDelta
                   else some (acc.1.pitchDelta.getD 0 + z)
       | none => acc.1.pitchDelta
     around :=
       match c.change.around with
       | some a => some a
       | none => acc.1.around
     pinchAround :=
       match c.change.pinchAround with
       | some a => some a
       | none => acc.1.pinchAround
     noInertia :=
       if c.change.noInertia = some true then some true else acc.1.noInertia },
   extendEip acc.2.1 c.eventsInProgress,
   acc.2.2 ++ c.deactivatedHandlers)

/-- The combining phase of _applyChanges: fold the queued changes (oldest
first) starting from empty accumulators. -/
def combineChanges (changes : List PendingChange) :
    HandlerResult × EventsInProgress × List (String × Option ℕ) :=
  changes.foldl combineStep ({}, {}, [])

theorem combineStep_zoom_val (acc) (c : PendingChange) :
    (combineStep acc c).1.zoomDelta.getD 0 =
      acc.1.zoomDelta.getD 0 + c.change.zoomDelta.getD 0 := by
  rcases h : c.change.zoomDelta with _ | z
  · simp [combineStep, h]
  · by_cases hz : z = 0 <;> simp [combineStep, h, hz]

theorem combineStep_bearing_val (acc) (c : PendingChange) :
    (combineStep acc c).1.bearingDelta.getD 0 =
      acc.1.bearingDelta.getD 0 + c.change.bearingDelta.getD 0 := by
  rcases h : c.change.bearingDelta with _ | z
  · simp [combineStep, h]
  · by_cases hz : z = 0 <;> simp [combineStep, h, hz]

theorem combineStep_pitch_val (acc) (c : PendingChange) :
    (combineStep acc c).1.pitchDelta.getD 0 =
      acc.1.pitchDelta.getD 0 + c.change.pitchDelta.getD 0 := by
  rcases h : c.change.pitchDelta with _ | z
  · simp [combineStep, h]
  · by_cases hz : z = 0 <;> simp [combineStep, h, hz]

theorem combineStep_pan_val (acc) (c : PendingChange) :
    (combineStep acc c).1.panDelta.getD Point.zero =
      (acc.1.panDelta.getD Point.zero).add (c.change.panDelta.getD Point.zero) := by
  rcases h : c.change.panDelta with _ | d
  · simp [combineStep, h, Point.add, Point.zero]
  · simp [combineStep, h]

theorem foldl_combine_zoom_val (changes : List PendingChange) :
    ∀ acc, (changes.foldl combineStep acc).1.zoomDelta.getD 0 =
      acc.1.zoomDelta.getD 0 +
        (changes.map fun c => c.change.zoomDelta.getD 0).sum := by
  induction changes with
  | nil => intro acc; simp
  | cons c t ih =>
    intro acc
    simp only [List.foldl_cons, List.map_cons, List.sum_cons]
    rw [ih, combineStep_zoom_val]
    ring

theorem foldl_combine_bearing_val (changes : List PendingChange) :
    ∀ acc, (changes.foldl combineStep acc).1.bearingDelta.getD 0 =
      acc.1.bearingDelta.getD 0 +
        (changes.map fun c => c.change.bearingDelta.getD 0).sum := by
  induction changes with
  | nil => intro acc; simp
  | cons c t ih =>
    intro acc
    simp only [List.foldl_cons, List.map_cons, List.sum_cons]
    rw [ih, combineStep_bearing_val]
    ring

theorem foldl_combine_pitch_val (changes : List PendingChange) :
    ∀ acc, (changes.foldl combineStep acc).1.pitchDelta.getD 0 =
      acc.1.pitchDelta.getD 0 +
        (changes.map fun c => c.change.pitchDelta.getD 0).sum := by
  induction changes with
  | nil => intro acc; simp
  | cons c t ih =>
    intro acc
    simp only [List.foldl_cons, List.map_cons, List.sum_cons]
    rw [ih, combineStep_pitch_val]
    ring

theorem foldl_combine_pan_x (changes : List PendingChange) :
    ∀ acc, ((changes.foldl combineStep acc).1.panDelta.getD Point.zero).x =
      (acc.1.panDelta.getD Point.zero).x +
        (changes.map fun c => (c.change.panDelta.getD Point.zero).x).sum := by
  induction changes with
  | nil => intro acc; simp
  | cons c t ih =>
    intro acc
    simp only [List.foldl_cons, List.map_cons, List.sum_cons]
    rw [ih, combineStep_pan_val]
    simp [Point.add]
    ring

theorem foldl_combine_pan_y (changes : List PendingChange) :
    ∀ acc, ((changes.foldl combineStep acc).1.panDelta.getD Point.zero).y =
      (acc.1.panDelta.getD Point.zero).y +
        (changes.map fun c => (c.change.panDelta.getD Point.zero).y).sum := by
  induction changes with
  | nil => intro acc; simp
  | cons c t ih =>
    intro acc
    simp only [List.foldl_cons, List.map_cons, List.sum_cons]
    rw [ih, combineStep_pan_val]
    simp [Point.add]
    ring

theorem foldl_combine_around (changes : List PendingChange) :
    ∀ acc, (changes.foldl combineStep acc).1.around =
      jsOverride acc.1.around (lastSome (changes.map fun c => c.change.around)) := by
  induction changes with
  | nil => intro acc; simp [jsOverride, lastSome]
  | cons c t ih =>
    intro acc
    simp only [List.foldl_cons, List.map_cons]
    rw [ih, ← jsOverride_lastSome_cons]
    rcases h : c.change.around with _ | a <;> simp [combineStep, h, jsOverride]

theorem foldl_combine_pinchAround (changes : List PendingChange) :
    ∀ acc, (changes.foldl combineStep acc).1.pinchAround =
      jsOverride acc.1.pinchAround
        (lastSome (changes.map fun c => c.change.pinchAround)) := by
  induction changes with
  | nil => intro acc; simp [jsOverride, lastSome]
  | cons c t ih =>
    intro acc
    simp only [List.foldl_cons, List.map_cons]
    rw [ih, ← jsOverride_lastSome_cons]
    rcases h : c.change.pinchAround with _ | a <;> simp [combineStep, h, jsOverride]

theorem foldl_combine_noInertia (changes : List PendingChange) :
    ∀ acc, (changes.foldl combineStep acc).1.noInertia =
      (if changes.any fun c => c.change.noInertia = some true
       then some true else acc.1.noInertia) := by
  induction changes with
  | nil => intro acc; simp
  | cons c t ih =>
    intro acc
    simp only [List.foldl_cons, List.any_cons]
    rw [ih]
    by_cases h : c.change.noInertia = some true <;>
      by_cases ht : t.any (fun c => c.change.noInertia = some true) <;>
        simp [combineStep, h, ht]

theorem jsOverride_none {α : Type} (s : Option α) : jsOverride none s = s := by
  cases s <;> simp [jsOverride]

/-- C2: Flush accumulation — _applyChanges combines the queued
PendingChanges into a result whose pan delta is the vector sum of the
queued pan deltas, whose zoom/bearing/pitch deltas are the arithmetic sums
of the queued deltas (absent deltas counting as 0), whose around and
pinchAround are the last non-undefined values seen, and whose
suppress-inertia flag is truthy iff some queued change set it; in
particular N queued changes each carrying pan delta d combine to N·d. -/
theorem applyChanges_combines (changes : List PendingChange) :
    (((combineChanges changes).1.panDelta.getD Point.zero).x
        = (changes.map fun c => (c.change.panDelta.getD Point.zero).x).sum
      ∧ ((combineChanges changes).1.panDelta.getD Point.zero).y
        = (changes.map fun c => (c.change.panDelta.getD Point.zero).y).sum)
    ∧ ((combineChanges changes).1.zoomDelta.getD 0
        = (changes.map fun c => c.change.zoomDelta.getD 0).sum)
    ∧ ((combineChanges changes).1.bearingDelta.getD 0
        = (changes.map fun c => c.change.bearingDelta.getD 0).sum)
    ∧ ((combineChanges changes).1.pitchDelta.getD 0
        = (changes.map fun c => c.change.pitchDelta.getD 0).sum)
    ∧ ((combineChanges changes).1.around
        = lastSome (changes.map fun c => c.change.around))
    ∧ ((combineChanges changes).1.pinchAround
        = lastSome (changes.map fun c => c.change.pinchAround))
    ∧ ((combineChanges changes).1.noInertia = some true
        ↔ ∃ c ∈ changes, c.change.noInertia = some true)
    ∧ (∀ (n : ℕ) (c : PendingChange) (d : Point),
        (combineChanges (List.replicate n
            { c with change := { c.change with panDelta := some d } })).1.panDelta.getD
          Point.zero = ⟨n * d.x, n * d.y⟩) := by
  refine ⟨⟨?_, ?_⟩, ?_, ?_, ?_, ?_, ?_, ?_, ?_⟩
  · rw [combineChanges, foldl_combine_pan_x]; simp [Point.zero]
  · rw [combineChanges, foldl_combine_pan_y]; simp [Point.zero]
  · rw [combineChanges, foldl_combine_zoom_val]; simp
  · rw [combineChanges, foldl_combine_bearing_val]; simp
  · rw [combineChanges, foldl_combine_pitch_val]; simp
  · rw [combineChanges, foldl_combine_around]; simp [jsOverride_none]
  · rw [combineChanges, foldl_combine_pinchAround]; simp [jsOverride_none]
  · rw [combineChanges, foldl_combine_noInertia]
    by_cases h : changes.any fun c => c.change.noInertia = some true
    · simp only [h, if_true]
      simp only [List.any_eq_true, decide_eq_true_eq] at h
      simpa using h
    · simp only [h, if_false]
      simp only [List.any_eq_true, decide_eq_true_eq] at h
      constructor
      · intro hc; cases hc
      · intro hc
        exact absurd hc (by simpa using h)
  · intro n c d
    have hx := foldl_combine_pan_x
      (List.replicate n { c with change := { c.change with panDelta := some d } })
      (({} : HandlerResult), ({} : EventsInProgress),
        ([] : List (String × Option ℕ)))
    have hy := foldl_combine_pan_y
      (List.replicate n { c with change := { c.change with panDelta := some d } })
      (({} : HandlerResult), ({} : EventsInProgress),
        ([] : List (String × Option ℕ)))
    simp only [List.map_replicate] at hx hy
    have heta : (combineChanges (List.replicate n
        { c with change := { c.change with panDelta := some d } })).1.panDelta.getD
          Point.zero
        = ⟨((combineChanges (List.replicate n
            { c with change := { c.change with panDelta := some d } })).1.panDelta.getD
              Point.zero).x,
           ((combineChanges (List.replicate n
            { c with change := { c.change with panDelta := some d } })).1.panDelta.getD
              Point.zero).y⟩ := rfl
    rw [heta]
    rw [combineChanges] at *
    rw [hx, hy]
    simp [Point.zero, List.sum_replicate, nsmul_eq_mul]

/-- C9: Absent versus explicit-zero delta fields — a delta field that is
absent (undefined) records no gesture-category ownership in
mergeHandlerResult and contributes nothing to the flush sums, whereas a
delta field explicitly set to 0 does record the handler as owner of the
category while contributing 0 to the summed value. -/
theorem absent_vs_zero_delta
    (m : HandlerResult) (eip : EventsInProgress) (ra rz : HandlerResult)
    (name : String) (e : Option ℕ) (changes : List PendingChange)
    (c : PendingChange) :
    ((ra.zoomDelta = none →
        (mergeHandlerResult m eip (some ra) name e).2.zoom = eip.zoom)
      ∧ (ra.panDelta = none →
        (mergeHandlerResult m eip (some ra) name e).2.drag = eip.drag)
      ∧ (ra.pitchDelta = none →
        (mergeHandlerResult m eip (some ra) name e).2.pitch = eip.pitch)
      ∧ (ra.bearingDelta = none →
        (mergeHandlerResult m eip (some ra) name e).2.rotate = eip.rotate))
    ∧ ((rz.zoomDelta = some 0 →
        (mergeHandlerResult m eip (some rz) name e).2.zoom
          = some (eventDataOf name rz e))
      ∧ (rz.panDelta = some Point.zero →
        (mergeHandlerResult m eip (some rz) name e).2.drag
          = some (eventDataOf name rz e))
      ∧ (rz.pitchDelta = some 0 →
        (mergeHandlerResult m eip (some rz) name e).2.pitch
          = some (eventDataOf name rz e))
      ∧ (rz.bearingDelta = some 0 →
        (mergeHandlerResult m eip (some rz) name e).2.rotate
          = some (eventDataOf name rz e)))
    ∧ ((c.change.zoomDelta = none ∨ c.change.zoomDelta = some 0 →
        (combineChanges (changes ++ [c])).1.zoomDelta.getD 0
          = (combineChanges changes).1.zoomDelta.getD 0)
      ∧ (c.change.panDelta = none ∨ c.change.panDelta = some Point.zero →
        (combineChanges (changes ++ [c])).1.panDelta.getD Point.zero
          = (combineChanges changes).1.panDelta.getD Point.zero)
      ∧ (c.change.pitchDelta = none ∨ c.change.pitchDelta = some 0 →
        (combineChanges (changes ++ [c])).1.pitchDelta.getD 0
          = (combineChanges changes).1.pitchDelta.getD 0)
      ∧ (c.change.bearingDelta = none ∨ c.change.bearingDelta = some 0 →
        (combineChanges (changes ++ [c])).1.bearingDelta.getD 0
          = (combineChanges changes).1.bearingDelta.getD 0)) := by
  refine ⟨⟨?_, ?_, ?_, ?_⟩, ⟨?_, ?_, ?_, ?_⟩, ?_, ?_, ?_, ?_⟩
  · intro h; simp [mergeHandlerResult, h]
  · intro h; simp [mergeHandlerResult, h]
  · intro h; simp [mergeHandlerResult, h]
  · intro h; simp [mergeHandlerResult, h]
  · intro h; simp [mergeHandlerResult, h]
  · intro h; simp [mergeHandlerResult, h]
  · intro h; simp [mergeHandlerResult, h]
  · intro h; simp [mergeHandlerResult, h]
  · intro h
    rw [combineChanges, combineChanges, List.foldl_append, List.foldl_cons,
      List.foldl_nil, combineStep_zoom_val]
    rcases h with h | h <;> simp [h]
  · intro h
    rw [combineChanges, combineChanges, List.foldl_append, List.foldl_cons,
      List.foldl_nil, combineStep_pan_val]
    rcases h with h | h <;> simp [h, Point.add, Point.zero]
  · intro h
    rw [combineChanges, combineChanges, List.foldl_append, List.foldl_cons,
      List.foldl_nil, combineStep_pitch_val]
    rcases h with h | h <;> simp [h]
  · intro h
    rw [combineChanges, combineChanges, List.foldl_append, List.foldl_cons,
      List.foldl_nil, combineStep_bearing_val]
    rcases h with h | h <;> simp [h]

/-- Witness for absent_vs_zero_delta at concrete inputs: an all-absent
result, an all-explicit-zero result, and an all-zero queued change. -/
theorem absent_vs_zero_delta_witness :
    ((mergeHandlerResult {} {} (some {}) "h" (some 1)).2.zoom = none
      ∧ (mergeHandlerResult {} {} (some {}) "h" (some 1)).2.drag = none
      ∧ (mergeHandlerResult {} {} (some {}) "h" (some 1)).2.pitch = none
      ∧ (mergeHandlerResult {} {} (some {}) "h" (some 1)).2.rotate = none)
    ∧ ((mergeHandlerResult {} {}
          (some { zoomDelta := some 0, panDelta := some Point.zero,
                  pitchDelta := some 0, bearingDelta := some 0 })
          "h" (some 1)).2.zoom
        = some (eventDataOf "h"
            { zoomDelta := some 0, panDelta := some Point.zero,
              pitchDelta := some 0, bearingDelta := some 0 } (some 1))
      ∧ (mergeHandlerResult {} {}
          (some { zoomDelta := some 0, panDelta := some Point.zero,
                  pitchDelta := some 0, bearingDelta := some 0 })
          "h" (some 1)).2.drag
        = some (eventDataOf "h"
            { zoomDelta := some 0, panDelta := some Point.zero,
              pitchDelta := some 0, bearingDelta := some 0 } (some 1)))
    ∧ (combineChanges ([] ++
          [{ change := { zoomDelta := some 0, panDelta := some Point.zero,
                         pitchDelta := some 0, bearingDelta := some 0 },
             eventsInProgress := {}, deactivatedHandlers := [] }])).1.zoomDelta.getD 0
        = (combineChanges []).1.zoomDelta.getD 0
    ∧ (combineChanges ([] ++
          [{ change := { zoomDelta := some 0, panDelta := some Point.zero,
                         pitchDelta := some 0, bearingDelta := some 0 },
             eventsInProgress := {}, deactivatedHandlers := [] }])).1.panDelta.getD
          Point.zero
        = (combineChanges []).1.panDelta.getD Point.zero := by
  have h := absent_vs_zero_delta ({} : HandlerResult) ({} : EventsInProgress)
    ({} : HandlerResult)
    ({ zoomDelta := some 0, panDelta := some Point.zero,
       pitchDelta := some 0, bearingDelta := some 0 } : HandlerResult)
    "h" (some 1) ([] : List PendingChange)
    ({ change := { zoomDelta := some 0, panDelta := some Point.zero,
                   pitchDelta := some 0, bearingDelta := some 0 },
       eventsInProgress := {}, deactivatedHandlers := [] } : PendingChange)
  exact ⟨⟨h.1.1 rfl, h.1.2.1 rfl, h.1.2.2.1 rfl, h.1.2.2.2 rfl⟩,
    ⟨h.2.1.1 rfl, h.2.1.2.1 rfl⟩,
    h.2.2.1 (Or.inr rfl), h.2.2.2.1 (Or.inr rfl)⟩

/-- The inertial ease target returned by HandlerInertia._onMoveEnd.
Only its optional bearing matters to the manager; the rest of the target
(offset/zoom/pitch/duration) is abstracted as an opaque payload. -/
structure EaseTarget where
  bearing : Option ℚ := none
  payload : ℕ := 0
deriving DecidableEq

/-- What one _fireEvents call emitted: the ordered list of event names
passed to _fireEvent, the easeTo target if one was handed off, and whether
resetNorth was invoked. -/
structure FireOutcome where
  fired : List String
  eased : Option EaseTarget
  resetNorthCalled : Bool
  endEvent : Option ℕ
deriving DecidableEq

/-- isMoving(p): `p.zoom || p.drag || p.pitch || p.rotate` as a Bool. -/
def isMovingB (m : EventsInProgress) : Bool :=
  m.zoom.isSome || m.drag.isSome || m.pitch.isSome || m.rotate.isSome

/-- shouldSnapToNorth(bearing): `bearing !== 0 && -bearingSnap < bearing &&
bearing < bearingSnap`. -/
def shouldSnapToNorth (bearingSnap b : ℚ) : Bool :=
  decide (b ≠ 0) && decide (-bearingSnap < b) && decide (b < bearingSnap)

/-- Last-wins lookup in a JS-object-like association list. -/
def lookupLast (m : List (String × Option ℕ)) (k : String) : Option (Option ℕ) :=
  lastSome (m.map fun kv => if kv.1 = k then some kv.2 else none)

/-- The end event attributed to a deleted events-in-progress entry:
`deactivatedHandlers[handlerName] || originalEvent`. -/
def endEventFor (deact : List (String × Option ℕ)) (d : EventData) : Option ℕ :=
  match lookupLast deact d.handlerName with
  | some (some ev) => some ev
  | _ => d.originalEvent

/-- The category-start events fired by the merge loop of _fireEvents
(`if (isStart) fire(eventName + "start")`). -/
def startsFired (eip newE : EventsInProgress) : List String :=
  (if newE.zoom.isSome && eip.zoom.isNone then ["zoomstart"] else [])
  ++ (if newE.drag.isSome && eip.drag.isNone then ["dragstart"] else [])
  ++ (if newE.pitch.isSome && eip.pitch.isNone then ["pitchstart"] else [])
  ++ (if newE.rotate.isSome && eip.rotate.isNone then ["rotatestart"] else [])

/-- The per-category change events fired for every category present in the
new events-in-progress of this flush. -/
def changeFired (newE : EventsInProgress) : List String :=
  (if newE.zoom.isSome then ["zoom"] else [])
  ++ (if newE.drag.isSome then ["drag"] else [])
  ++ (if newE.pitch.isSome then ["pitch"] else [])
  ++ (if newE.rotate.isSome then ["rotate"] else [])

/-- The deletion loop of _fireEvents: every category whose owning handler
is no longer active is removed from the persistent map. -/
def deleteInactive (m : EventsInProgress) (active : String → Bool) :
    EventsInProgress where
  zoom := match m.zoom with
    | some d => if active d.handlerName then some d else none
    | none => none
  drag := match m.drag with
    | some d => if active d.handlerName then some d else none
    | none => none
  pitch := match m.pitch with
    | some d => if active d.handlerName then some d else none
    | none => none
  rotate := match m.rotate with
    | some d => if active d.handlerName then some d else none
    | none => none

/-- Whether the deletion loop removes (and fires an end event for) a slot:
the slot is occupied and its owning handler reports inactive. -/
def endFlag (slot : Option EventData) (active : String → Bool) : Bool :=
  match slot with
  | some d => !(active d.handlerName)
  | none => false

/-- The category-end events fired by the deletion loop. -/
def endsFired (m : EventsInProgress) (active : String → Bool) : List String :=
  (if endFlag m.zoom active then ["zoomend"] else [])
  ++ (if endFlag m.drag active then ["dragend"] else [])
  ++ (if endFlag m.pitch active then ["pitchend"] else [])
  ++ (if endFlag m.rotate active then ["rotateend"] else [])

/-- HandlerManager._fireEvents.  Inputs beyond the two argument maps are the
collaborators it consults: the registry's isActive per handler name, the
inertia tracker's _onMoveEnd result, the map's current bearing and the
configured bearingSnap.  Returns the new persistent events-in-progress map
and everything emitted.  The persistent map first takes in the new events
(extend), then drops every category whose owner is inactive; movestart
fires on !wasMoving && nowMoving; on ending (wasMoving || nowMoving) &&
!stillMoving either easeTo is invoked on the (bearing-snapped) inertial
target, or moveend fires and resetNorth is invoked when the current
bearing is within snap tolerance. -/
def fireEvents (eip newE : EventsInProgress)
    (deact : List (String × Option ℕ)) (active : String → Bool)
    (inertialEase : Option EaseTarget) (mapBearing bearingSnap : ℚ) :
    EventsInProgress × FireOutcome :=
  let wasMoving := isMovingB eip
  let nowMoving := isMovingB newE
  let movestartFired := !wasMoving && nowMoving
  let eip1 := extendEip eip newE
  let eip2 := deleteInactive eip1 active
  let stillMoving := isMovingB eip2
  let endTriggered := (wasMoving || nowMoving) && !stillMoving
  let eased : Option EaseTarget :=
    if endTriggered then
      match inertialEase with
      | some ease =>
        let checked :=
          match ease.bearing with
          | some b => if b ≠ 0 then b else mapBearing
          | none => mapBearing
        some (if shouldSnapToNorth bearingSnap checked
              then { ease with bearing := some 0 } else ease)
      | none => none
    else none
  let moveendFired := endTriggered && inertialEase.isNone
  let resetNorthCalled := moveendFired && shouldSnapToNorth bearingSnap mapBearing
  let pickEnd := fun (cur : Option ℕ) (slot : Option EventData) =>
    match slot with
    | some d => if active d.handlerName then cur else endEventFor deact d
    | none => cur
  let endEvent :=
    pickEnd (pickEnd (pickEnd (pickEnd none eip1.zoom) eip1.drag) eip1.pitch)
      eip1.rotate
  let fired :=
    (if movestartFired then ["movestart"] else [])
    ++ startsFired eip newE
    ++ (if nowMoving then ["move"] else [])
    ++ changeFired newE
    ++ endsFired eip1 active
    ++ (if moveendFired then ["moveend"] else [])
  (eip2, { fired := fired, eased := eased,
           resetNorthCalled := resetNorthCalled, endEvent := endEvent })

theorem jsOverride_isSome {α : Type} (d s : Option α) :
    (jsOverride d s).isSome = (d.isSome || s.isSome) := by
  cases s <;> simp [jsOverride]

theorem isMovingB_extendEip (a b : EventsInProgress) :
    isMovingB (extendEip a b) = (isMovingB a || isMovingB b) := by
  simp only [isMovingB, extendEip, jsOverride_isSome]
  cases a.zoom.isSome <;> cases a.drag.isSome <;> cases a.pitch.isSome <;>
    cases a.rotate.isSome <;> simp

theorem startsFired_count_movestart (eip newE : EventsInProgress) :
    (startsFired eip newE).count "movestart" = 0 := by
  unfold startsFired
  split_ifs <;> simp

theorem changeFired_count_movestart (newE : EventsInProgress) :
    (changeFired newE).count "movestart" = 0 := by
  unfold changeFired
  split_ifs <;> simp

theorem endsFired_count_movestart (m : EventsInProgress) (active : String → Bool) :
    (endsFired m active).count "movestart" = 0 := by
  unfold endsFired
  split_ifs <;> simp

theorem startsFired_count_moveend (eip newE : EventsInProgress) :
    (startsFired eip newE).count "moveend" = 0 := by
  unfold startsFired
  split_ifs <;> simp

theorem changeFired_count_moveend (newE : EventsInProgress) :
    (changeFired newE).count "moveend" = 0 := by
  unfold changeFired
  split_ifs <;> simp

theorem endsFired_count_moveend (m : EventsInProgress) (active : String → Bool) :
    (endsFired m active).count "moveend" = 0 := by
  unfold endsFired
  split_ifs <;> simp

theorem fireEvents_count_movestart (eip newE : EventsInProgress)
    (deact : List (String × Option ℕ)) (active : String → Bool)
    (ease : Option EaseTarget) (mb snap : ℚ) :
    (fireEvents eip newE deact active ease mb snap).2.fired.count "movestart"
      = if !(isMovingB eip) && isMovingB newE then 1 else 0 := by
  simp only [fireEvents]
  simp only [List.count_append, startsFired_count_movestart,
    changeFired_count_movestart, endsFired_count_movestart]
  split_ifs <;> simp_all

theorem fireEvents_count_moveend (eip newE : EventsInProgress)
    (deact : List (String × Option ℕ)) (active : String → Bool)
    (ease : Option EaseTarget) (mb snap : ℚ) :
    (fireEvents eip newE deact active ease mb snap).2.fired.count "moveend"
      = if ((isMovingB eip || isMovingB newE)
            && !(isMovingB (fireEvents eip newE deact active ease mb snap).1))
           && ease.isNone
        then 1 else 0 := by
  simp only [fireEvents]
  simp only [List.count_append, startsFired_count_moveend,
    changeFired_count_moveend, endsFired_count_moveend]
  split_ifs <;> simp_all

theorem fireEvents_eased_isSome (eip newE : EventsInProgress)
    (deact : List (String × Option ℕ)) (active : String → Bool)
    (ease : Option EaseTarget) (mb snap : ℚ) :
    (fireEvents eip newE deact active ease mb snap).2.eased.isSome
      = (((isMovingB eip || isMovingB newE)
            && !(isMovingB (fireEvents eip newE deact active ease mb snap).1))
          && ease.isSome) := by
  simp only [fireEvents]
  rcases ease with _ | e <;> split_ifs <;> simp_all

/-- The external inputs of one _fireEvents call: the new events of the
flush, the deactivated-handlers map, the handlers' isActive oracle, the
inertia tracker's result, and the map's current bearing. -/
structure FireInput where
  newE : EventsInProgress
  deact : List (String × Option ℕ)
  active : String → Bool
  ease : Option EaseTarget
  mapBearing : ℚ

/-- Run a sequence of _fireEvents calls threading the persistent
events-in-progress map, counting (movestart emissions, moveend-or-ease
emissions). -/
def fireCounts (snap : ℚ) : EventsInProgress → List FireInput → ℕ × ℕ
  | _, [] => (0, 0)
  | eip, i :: rest =>
    let r := fireEvents eip i.newE i.deact i.active i.ease i.mapBearing snap
    let restCounts := fireCounts snap r.1 rest
    (r.2.fired.count "movestart" + restCounts.1,
     (r.2.fired.count "moveend" + (if r.2.eased.isSome then 1 else 0))
       + restCounts.2)

/-- Count, along the same sequence, the transitions of the persistent map:
upward (zero active categories just before a call to one-or-more at the
in-call merge point) and downward (one-or-more at the merge point to zero
after the call).  The map only grows at the merge point and only shrinks
at the deletion point, so these are exactly the zero-boundary crossings of
its trace. -/
def transCounts (snap : ℚ) : EventsInProgress → List FireInput → ℕ × ℕ
  | _, [] => (0, 0)
  | eip, i :: rest =>
    let mid := extendEip eip i.newE
    let post := (fireEvents eip i.newE i.deact i.active i.ease i.mapBearing snap).1
    let restCounts := transCounts snap post rest
    ((if !(isMovingB eip) && isMovingB mid then 1 else 0) + restCounts.1,
     (if isMovingB mid && !(isMovingB post) then 1 else 0) + restCounts.2)

/-- C5: Lifecycle transitions — per _fireEvents call, movestart is emitted
exactly once when the persistent events-in-progress map goes from zero
active gesture categories (before the call) to one-or-more (after the
in-call merge), and exactly one of moveend or an inertia-driven easeTo
occurs exactly when the map goes from one-or-more back to zero; over every
sequence of calls the emission counts equal the transition counts. -/
theorem fireEvents_lifecycle_transitions (snap : ℚ) :
    (∀ (eip newE : EventsInProgress) (deact : List (String × Option ℕ))
       (active : String → Bool) (ease : Option EaseTarget) (mb : ℚ),
      (fireEvents eip newE deact active ease mb snap).2.fired.count "movestart"
        = if !(isMovingB eip) && isMovingB (extendEip eip newE) then 1 else 0)
    ∧ (∀ (eip newE : EventsInProgress) (deact : List (String × Option ℕ))
       (active : String → Bool) (ease : Option EaseTarget) (mb : ℚ),
      (fireEvents eip newE deact active ease mb snap).2.fired.count "moveend"
          + (if (fireEvents eip newE deact active ease mb snap).2.eased.isSome
             then 1 else 0)
        = if isMovingB (extendEip eip newE)
              && !(isMovingB (fireEvents eip newE deact active ease mb snap).1)
          then 1 else 0)
    ∧ (∀ (eip : EventsInProgress) (inputs : List FireInput),
      fireCounts snap eip inputs = transCounts snap eip inputs) := by
  have h1 : ∀ (eip newE : EventsInProgress) (deact : List (String × Option ℕ))
      (active : String → Bool) (ease : Option EaseTarget) (mb : ℚ),
      (fireEvents eip newE deact active ease mb snap).2.fired.count "movestart"
        = if !(isMovingB eip) && isMovingB (extendEip eip newE) then 1 else 0 := by
    intro eip newE deact active ease mb
    rw [fireEvents_count_movestart, isMovingB_extendEip]
    cases h : isMovingB eip <;> simp
  have h2 : ∀ (eip newE : EventsInProgress) (deact : List (String × Option ℕ))
      (active : String → Bool) (ease : Option EaseTarget) (mb : ℚ),
      (fireEvents eip newE deact active ease mb snap).2.fired.count "moveend"
          + (if (fireEvents eip newE deact active ease mb snap).2.eased.isSome
             then 1 else 0)
        = if isMovingB (extendEip eip newE)
              && !(isMovingB (fireEvents eip newE deact active ease mb snap).1)
          then 1 else 0 := by
    intro eip newE deact active ease mb
    rw [fireEvents_count_moveend, fireEvents_eased_isSome, isMovingB_extendEip]
    rcases ease with _ | e <;>
      cases hw : isMovingB eip <;> cases hn : isMovingB newE <;> simp_all
  refine ⟨h1, h2, ?_⟩
  intro eip inputs
  induction inputs generalizing eip with
  | nil => rfl
  | cons i rest ih =>
    simp only [fireCounts, transCounts]
    rw [h1, h2, ih]

theorem shouldSnapToNorth_iff (snap b : ℚ) :
    shouldSnapToNorth snap b = true ↔ b ≠ 0 ∧ |b| < snap := by
  simp [shouldSnapToNorth, abs_lt, and_assoc]

theorem easeTarget_update_self (e : EaseTarget) (h : e.bearing = some 0) :
    { e with bearing := some 0 } = e := by
  cases e
  simp_all

/-- C7: Bearing snap — at a gesture end (the events-in-progress map is
moving at the merge point and empty after deletion), an inertial ease
target bearing b with 0 < |b| < snapTolerance is zeroed; a target bearing
with b = 0 or |b| ≥ snapTolerance is handed over unchanged; an ease with
no bearing gets bearing 0 exactly when the map's current bearing is
nonzero and within tolerance; with no inertial ease, moveend fires and
reset-to-north is invoked exactly when the current bearing is nonzero and
within tolerance. -/
theorem fireEvents_bearing_snap (eip newE : EventsInProgress)
    (deact : List (String × Option ℕ)) (active : String → Bool)
    (mb snap : ℚ)
    (hmid : isMovingB (extendEip eip newE) = true)
    (hstill : isMovingB (deleteInactive (extendEip eip newE) active) = false) :
    (∀ (e : EaseTarget) (b : ℚ), e.bearing = some b → b ≠ 0 → |b| < snap →
      (fireEvents eip newE deact active (some e) mb snap).2.eased
        = some { e with bearing := some 0 })
    ∧ (∀ (e : EaseTarget) (b : ℚ), e.bearing = some b → (b = 0 ∨ snap ≤ |b|) →
      (fireEvents eip newE deact active (some e) mb snap).2.eased = some e)
    ∧ (∀ e : EaseTarget, e.bearing = none →
      (mb ≠ 0 ∧ |mb| < snap →
        (fireEvents eip newE deact active (some e) mb snap).2.eased
          = some { e with bearing := some 0 })
      ∧ (¬(mb ≠ 0 ∧ |mb| < snap) →
        (fireEvents eip newE deact active (some e) mb snap).2.eased = some e))
    ∧ (((fireEvents eip newE deact active none mb snap).2.resetNorthCalled = true
          ↔ mb ≠ 0 ∧ |mb| < snap)
      ∧ "moveend" ∈ (fireEvents eip newE deact active none mb snap).2.fired
      ∧ (fireEvents eip newE deact active none mb snap).2.eased = none) := by
  have hwn : (isMovingB eip || isMovingB newE) = true := by
    rw [← isMovingB_extendEip]; exact hmid
  refine ⟨?_, ?_, ?_, ?_, ?_, ?_⟩
  · intro e b hb hb0 habs
    simp only [fireEvents, hwn, hstill]
    rw [hb]
    have : shouldSnapToNorth snap b = true := by
      rw [shouldSnapToNorth_iff]; exact ⟨hb0, habs⟩
    simp [hb0, this]
  · intro e b hb hcase
    simp only [fireEvents, hwn, hstill]
    rw [hb]
    by_cases hb0 : b = 0
    · subst hb0
      have he := easeTarget_update_self e hb
      split <;> simp_all
    · have : shouldSnapToNorth snap b = false := by
        rw [Bool.eq_false_iff, Ne, shouldSnapToNorth_iff]
        rcases hcase with h | h
        · exact absurd h hb0
        · intro hc; exact absurd hc.2 (not_lt.mpr h)
      simp [hb0, this]
  · intro e hb
    constructor
    · intro hsnap
      simp only [fireEvents, hwn, hstill]
      rw [hb]
      have : shouldSnapToNorth snap mb = true := by
        rw [shouldSnapToNorth_iff]; exact hsnap
      simp [this]
    · intro hsnap
      simp only [fireEvents, hwn, hstill]
      rw [hb]
      have : shouldSnapToNorth snap mb = false := by
        rw [Bool.eq_false_iff, Ne, shouldSnapToNorth_iff]; exact hsnap
      simp [this]
  · simp only [fireEvents, hwn, hstill]
    simp [shouldSnapToNorth_iff]
  · simp only [fireEvents, hwn, hstill]
    simp
  · simp only [fireEvents, hwn, hstill]
    simp

/-- Witness for fireEvents_bearing_snap: a concrete gesture end — a zoom
entry owned by a handler that reports inactive — with an inertial ease of
bearing 1/2 under snap tolerance 7, which is zeroed; with ease bearing 20,
which is kept; and with no ease, where moveend fires and resetNorth runs
for current bearing 3. -/
theorem fireEvents_bearing_snap_witness :
    (fireEvents {} { zoom := some ⟨"h", some 1⟩ } [] (fun _ => false)
        (some { bearing := some (1/2), payload := 5 }) 3 7).2.eased
      = some { bearing := some 0, payload := 5 }
    ∧ (fireEvents {} { zoom := some ⟨"h", some 1⟩ } [] (fun _ => false)
        (some { bearing := some 20, payload := 5 }) 3 7).2.eased
      = some { bearing := some 20, payload := 5 }
    ∧ (fireEvents {} { zoom := some ⟨"h", some 1⟩ } [] (fun _ => false)
        none 3 7).2.resetNorthCalled = true
    ∧ "moveend" ∈ (fireEvents {} { zoom := some ⟨"h", some 1⟩ } [] (fun _ => false)
        none 3 7).2.fired := by
  have h := fireEvents_bearing_snap {} { zoom := some ⟨"h", some 1⟩ } []
    (fun _ => false) 3 7 (by rfl) (by rfl)
  refine ⟨?_, ?_, ?_, ?_⟩
  · exact h.1 { bearing := some (1/2), payload := 5 } (1/2) rfl
      (by norm_num) (by rw [abs_of_pos] <;> norm_num)
  · exact h.2.1 { bearing := some 20, payload := 5 } 20 rfl
      (Or.inr (by rw [abs_of_pos] <;> norm_num))
  · exact (h.2.2.2.1).mpr ⟨by norm_num, by rw [abs_of_pos] <;> norm_num⟩
  · exact h.2.2.2.2.1

/-- The camera transform's scalar state read and mutated by the manager.
The pan position is owned by the transform and only changed through
setLocationAtPoint. -/
structure Transform where
  pan : Point
  zoom : ℚ
  bearing : ℚ
  pitch : ℚ
deriving DecidableEq

/-- The transform primitives the manager consumes (map.transform):
project a screen point to a world location, solve the pan offset that
places a world location under a screen point, and the viewport centre
point. -/
structure TransformOps where
  pointLocation : Transform → Point → Point
  setLocationAtPoint : Transform → Point → Point → Transform
  centerPoint : Transform → Point

/-- The anchor after pinchAround substitution:
`if (pinchAround !== undefined) around = pinchAround`. -/
def effectiveAround (combined : HandlerResult) : Option (Option Point) :=
  if combined.pinchAround.isSome then combined.pinchAround else combined.around

/-- The screen anchor actually used: `around = around || tr.centerPoint`
(undefined and explicit null both fall back to the centre point). -/
def resolvedAround (ops : TransformOps) (tr : Transform)
    (combined : HandlerResult) : Point :=
  match effectiveAround combined with
  | some (some p) => p
  | _ => ops.centerPoint tr

/-- HandlerManager._updateMapTransform.  With no actual change it only runs
_fireEvents.  Otherwise: resolve the world location under the anchor
(anchor minus pan delta when a pan delta is present), apply the truthy
bearing/pitch/zoom deltas to the transform scalars, re-solve the pan so
the saved location sits back under the anchor, record inertia unless
suppressed, and run _fireEvents with the map's current bearing.  Returns
(new transform, new events-in-progress, emissions, inertia recorded). -/
def updateMapTransform (ops : TransformOps) (tr : Transform)
    (combined : HandlerResult) (combinedEip : EventsInProgress)
    (deact : List (String × Option ℕ)) (eip : EventsInProgress)
    (active : String → Bool) (ease : Option EaseTarget) (snap : ℚ) :
    Transform × EventsInProgress × FireOutcome × Bool :=
  if hasChange combined = false then
    let fe := fireEvents eip combinedEip deact active ease tr.bearing snap
    (tr, fe.1, fe.2, false)
  else
    let around := resolvedAround ops tr combined
    let loc := ops.pointLocation tr
      (match combined.panDelta with
       | some d => around.sub d
       | none => around)
    let tr1 := if truthyQ combined.bearingDelta
               then { tr with bearing := tr.bearing + combined.bearingDelta.getD 0 }
               else tr
    let tr2 := if truthyQ combined.pitchDelta
               then { tr1 with pitch := tr1.pitch + combined.pitchDelta.getD 0 }
               else tr1
    let tr3 := if truthyQ combined.zoomDelta
               then { tr2 with zoom := tr2.zoom + combined.zoomDelta.getD 0 }
               else tr2
    let tr4 := ops.setLocationAtPoint tr3 loc around
    let fe := fireEvents eip combinedEip deact active ease tr4.bearing snap
    (tr4, fe.1, fe.2, decide (combined.noInertia ≠ some true))

/-- C1: Anchor preservation — for a flush whose combined result has a
truthy zoom, bearing, or pitch delta and an anchor point p (pinch-anchor
substituting for the anchor when present), if the transform's
pointLocation and setLocationAtPoint are inverse, then the world location
under p after _updateMapTransform equals the world location that was under
p (or under p minus the pan delta, when one is present) before it. -/
theorem updateMapTransform_anchor (ops : TransformOps) (tr : Transform)
    (combined : HandlerResult) (combinedEip : EventsInProgress)
    (deact : List (String × Option ℕ)) (eip : EventsInProgress)
    (active : String → Bool) (ease : Option EaseTarget) (snap : ℚ) (p : Point)
    (hinv : ∀ (t : Transform) (loc q : Point),
      ops.pointLocation (ops.setLocationAtPoint t loc q) q = loc)
    (hdelta : truthyQ combined.zoomDelta = true
      ∨ truthyQ combined.bearingDelta = true
      ∨ truthyQ combined.pitchDelta = true)
    (hanchor : effectiveAround combined = some (some p)) :
    ops.pointLocation
      (updateMapTransform ops tr combined combinedEip deact eip active ease
        snap).1 p
      = ops.pointLocation tr
          (match combined.panDelta with
           | some d => p.sub d
           | none => p) := by
  have hchange : hasChange combined = true := by
    rcases hdelta with h | h | h <;> simp [hasChange, h]
  have hres : resolvedAround ops tr combined = p := by
    simp [resolvedAround, hanchor]
  simp only [updateMapTransform, hchange, Bool.true_eq_false, if_neg,
    reduceCtorEq, not_false_eq_true, hres]
  exact hinv _ _ _

/-- A concrete transform interpretation for the witness: pointLocation is
translation by the pan position and setLocationAtPoint solves it exactly,
so the two primitives are inverse. -/
def translationOps : TransformOps where
  pointLocation := fun t p => p.sub t.pan
  setLocationAtPoint := fun t loc q => { t with pan := q.sub loc }
  centerPoint := fun _ => Point.zero

theorem translationOps_inverse : ∀ (t : Transform) (loc q : Point),
    translationOps.pointLocation (translationOps.setLocationAtPoint t loc q) q
      = loc := by
  intro t loc q
  cases loc
  simp [translationOps, Point.sub]

/-- Witness for updateMapTransform_anchor: a combined result with zoom
delta 1, pan delta (5,0) and anchor (3,4) over the translation transform. -/
theorem updateMapTransform_anchor_witness :
    translationOps.pointLocation
      (updateMapTransform translationOps ⟨⟨10, 20⟩, 1, 2, 3⟩
        { zoomDelta := some 1, panDelta := some ⟨5, 0⟩,
          around := some (some ⟨3, 4⟩) }
        {} [] {} (fun _ => false) none 7).1 ⟨3, 4⟩
      = translationOps.pointLocation ⟨⟨10, 20⟩, 1, 2, 3⟩
          (Point.sub ⟨3, 4⟩ ⟨5, 0⟩) := by
  have h := updateMapTransform_anchor translationOps ⟨⟨10, 20⟩, 1, 2, 3⟩
    { zoomDelta := some 1, panDelta := some ⟨5, 0⟩,
      around := some (some ⟨3, 4⟩) }
    {} [] {} (fun _ => false) none 7 ⟨3, 4⟩
    translationOps_inverse (Or.inl (by decide)) rfl
  exact h

/-- A registered handler's private recognition state: `state` is its
current value, `initialState` what reset() restores (the Handler contract:
reset returns everything to its original state). -/
structure HandlerSt where
  name : String
  state : ℕ
  initialState : ℕ
deriving DecidableEq

/-- handler.reset(). -/
def resetHandler (h : HandlerSt) : HandlerSt := { h with state := h.initialState }

/-- The manager state crossing dispatch boundaries: registered handlers,
the pending change queue (_changes), the inertia sample list, the
persistent events-in-progress map, and the re-entrancy guard
(_updatingCamera).  The inertia sample list is modelled from the spec:
HandlerInertia is not under src/; per the spec its state is a bounded list
of (timestamp, combined delta) samples and clear() empties it. -/
structure ManagerState where
  handlers : List HandlerSt
  changes : List PendingChange
  inertiaSamples : List (ℕ × HandlerResult)
  eventsInProgress : EventsInProgress
  updatingCamera : Bool

/-- HandlerManager.stop(): does nothing while the _updatingCamera guard is
held; otherwise resets every handler, clears the inertia samples
(_inertia.clear()), runs _fireEvents({}, {}), and clears the change
queue.  The handlers' isActive oracle, the inertia tracker's _onMoveEnd
result and the map bearing consulted by the inner _fireEvents are passed
as oracles. -/
def stop (s : ManagerState) (active : String → Bool)
    (ease : Option EaseTarget) (mapBearing snap : ℚ) : ManagerState :=
  if s.updatingCamera then s
  else
    let handlers1 := s.handlers.map resetHandler
    let fe := fireEvents s.eventsInProgress {} [] active ease mapBearing snap
    { handlers := handlers1, changes := [], inertiaSamples := [],
      eventsInProgress := fe.1, updatingCamera := s.updatingCamera }

/-- Counterexample to C6 as stated: stop() invoked from a state in which
the re-entrancy guard _updatingCamera is held (as happens when stop is
re-entered during a gesture update) is an early-returned no-op — the
pending change queue is NOT cleared, so the postconditions do not hold
regardless of the state from which stop() is called. -/
theorem stop_guard_counterexample :
    ¬ ((stop
        { handlers := [⟨"h", 5, 0⟩],
          changes := [{ change := { zoomDelta := some 1 },
                        eventsInProgress := {},
                        deactivatedHandlers := [] }],
          inertiaSamples := [(0, {})],
          eventsInProgress := {},
          updatingCamera := true }
        (fun _ => false) none 0 7).changes = []) := by
  simp [stop]

/-- C6 amended: provided the re-entrancy guard _updatingCamera is not held
(stop() re-entered during a camera update is a no-op), stop() resets every
registered handler, clears the pending change queue and the inertia
samples; and a frame flush of the now-empty queue performs no camera
mutation. -/
theorem stop_clears_state (s : ManagerState) (active : String → Bool)
    (ease : Option EaseTarget) (mb snap : ℚ)
    (hguard : s.updatingCamera = false) :
    (stop s active ease mb snap).changes = []
    ∧ (stop s active ease mb snap).inertiaSamples = []
    ∧ (stop s active ease mb snap).handlers = s.handlers.map resetHandler
    ∧ (∀ h ∈ (stop s active ease mb snap).handlers, h.state = h.initialState)
    ∧ (∀ (ops : TransformOps) (tr : Transform)
        (deact : List (String × Option ℕ)) (eip : EventsInProgress)
        (active2 : String → Bool) (ease2 : Option EaseTarget) (snap2 : ℚ),
        (updateMapTransform ops tr
          (combineChanges (stop s active ease mb snap).changes).1
          (combineChanges (stop s active ease mb snap).changes).2.1
          deact eip active2 ease2 snap2).1 = tr) := by
  have hstop : (stop s active ease mb snap).changes = [] := by
    simp [stop, hguard]
  refine ⟨hstop, ?_, ?_, ?_, ?_⟩
  · simp [stop, hguard]
  · simp [stop, hguard]
  · intro h hmem
    simp only [stop, hguard, Bool.false_eq_true, if_false, if_neg] at hmem
    simp only [List.mem_map] at hmem
    obtain ⟨h0, _, rfl⟩ := hmem
    simp [resetHandler]
  · intro ops tr deact eip active2 ease2 snap2
    rw [hstop]
    simp [updateMapTransform, combineChanges, hasChange, truthyQ]

/-- A concrete manager state for the stop witness. -/
def sampleManagerState : ManagerState where
  handlers := [⟨"mousePan", 4, 0⟩, ⟨"scrollZoom", 9, 2⟩]
  changes := [{ change := { zoomDelta := some 1 },
                eventsInProgress := {}, deactivatedHandlers := [] }]
  inertiaSamples := [(3, { panDelta := some ⟨1, 1⟩ })]
  eventsInProgress := {}
  updatingCamera := false

/-- Witness for stop_clears_state at the concrete sampleManagerState. -/
theorem stop_clears_state_witness :
    (stop sampleManagerState (fun _ => false) none 0 7).changes = []
    ∧ (stop sampleManagerState (fun _ => false) none 0 7).inertiaSamples = []
    ∧ (updateMapTransform translationOps ⟨⟨0, 0⟩, 0, 0, 0⟩
        (combineChanges (stop sampleManagerState (fun _ => false) none 0 7).changes).1
        (combineChanges (stop sampleManagerState (fun _ => false) none 0 7).changes).2.1
        [] {} (fun _ => false) none 7).1 = ⟨⟨0, 0⟩, 0, 0, 0⟩ := by
  have h := stop_clears_state sampleManagerState (fun _ => false) none 0 7 rfl
  exact ⟨h.1, h.2.1,
    h.2.2.2.2 translationOps ⟨⟨0, 0⟩, 0, 0, 0⟩ [] {} (fun _ => false) none 7⟩

/-- The frame-request token state: whether _frameId is set, together with
the number of host frame requests currently outstanding (requested and not
yet fired). -/
structure FrameState where
  frameIdSet : Bool
  outstanding : ℕ
deriving DecidableEq

/-- The two operations touching the token: a _triggerRenderFrame call, and
the host firing one outstanding frame callback (whose prologue is
`delete this._frameId`). -/
inductive FrameOp where
  | trigger
  | fire
deriving DecidableEq

/-- _triggerRenderFrame requests a new frame only when the token is unset
(`if (this._frameId === undefined)`); the callback clears the token as the
host consumes one outstanding request. -/
def frameStep (s : FrameState) (op : FrameOp) : FrameState :=
  match op with
  | .trigger => if s.frameIdSet then s else ⟨true, s.outstanding + 1⟩
  | .fire => ⟨false, s.outstanding - 1⟩

/-- How many frame requests one operation issues. -/
def issuedBy (s : FrameState) (op : FrameOp) : ℕ :=
  match op with
  | .trigger => if s.frameIdSet then 0 else 1
  | .fire => 0

def runFrameOps (s : FrameState) : List FrameOp → FrameState
  | [] => s
  | op :: rest => runFrameOps (frameStep s op) rest

def issuedCount (s : FrameState) : List FrameOp → ℕ
  | [] => 0
  | op :: rest => issuedBy s op + issuedCount (frameStep s op) rest

/-- The C8 invariant: the token is set exactly when one request is
outstanding (and otherwise none is). -/
def frameInv (s : FrameState) : Prop :=
  s.outstanding = if s.frameIdSet then 1 else 0

theorem frameInv_step (s : FrameState) (op : FrameOp) (h : frameInv s) :
    frameInv (frameStep s op) := by
  cases op <;> unfold frameInv at * <;> unfold frameStep <;>
    cases hs : s.frameIdSet <;> simp_all

theorem frameInv_run (ops : List FrameOp) :
    ∀ s : FrameState, frameInv s → frameInv (runFrameOps s ops) := by
  induction ops with
  | nil => intro s h; exact h
  | cons op rest ih =>
    intro s h
    exact ih (frameStep s op) (frameInv_step s op h)

theorem issuedCount_set_zero (ops : List FrameOp) :
    ∀ s : FrameState, (∀ op ∈ ops, op = FrameOp.trigger) →
      s.frameIdSet = true → issuedCount s ops = 0 := by
  induction ops with
  | nil => intro s _ _; rfl
  | cons op rest ih =>
    intro s hall hset
    have hop : op = FrameOp.trigger := hall op (List.mem_cons_self op rest)
    subst hop
    have hstep : frameStep s FrameOp.trigger = s := by
      simp [frameStep, hset]
    simp only [issuedCount, issuedBy, hset, if_true, hstep]
    rw [ih s (fun o ho => hall o (List.mem_cons_of_mem _ ho)) hset]

/-- C8: Frame coalescing — from the initial state the token is set exactly
when a request is outstanding (so at most one request is ever
outstanding), and any fire-free run of _triggerRenderFrame calls (the
dispatches between two consecutive frame callbacks), from any state,
issues at most one frame request. -/
theorem frame_request_coalescing :
    (∀ ops : List FrameOp, frameInv (runFrameOps ⟨false, 0⟩ ops))
    ∧ (∀ ops : List FrameOp, (runFrameOps ⟨false, 0⟩ ops).outstanding ≤ 1)
    ∧ (∀ (s : FrameState) (ops : List FrameOp),
        (∀ op ∈ ops, op = FrameOp.trigger) → issuedCount s ops ≤ 1) := by
  have hinv : ∀ ops : List FrameOp, frameInv (runFrameOps ⟨false, 0⟩ ops) :=
    fun ops => frameInv_run ops ⟨false, 0⟩ rfl
  refine ⟨hinv, ?_, ?_⟩
  · intro ops
    have h := hinv ops
    unfold frameInv at h
    rw [h]
    split <;> simp
  · intro s ops hall
    induction ops with
    | nil => simp [issuedCount]
    | cons op rest ih =>
      have hop : op = FrameOp.trigger := hall op (List.mem_cons_self op rest)
      subst hop
      by_cases hset : s.frameIdSet = true
      · have hstep : frameStep s FrameOp.trigger = s := by
          simp [frameStep, hset]
        simp only [issuedCount, issuedBy, hset, if_true, hstep]
        simpa using ih (fun o ho => hall o (List.mem_cons_of_mem _ ho))
      · simp only [Bool.not_eq_true] at hset
        have hz := issuedCount_set_zero rest (frameStep s FrameOp.trigger)
          (fun o ho => hall o (List.mem_cons_of_mem _ ho))
          (by simp [frameStep, hset])
        simp [issuedCount, issuedBy, hset, hz]

/-- Witness for frame_request_coalescing: three consecutive triggers from
the idle state issue exactly one request in total (at most one). -/
theorem frame_request_coalescing_witness :
    frameInv (runFrameOps ⟨false, 0⟩
      [FrameOp.trigger, FrameOp.trigger, FrameOp.fire, FrameOp.trigger])
    ∧ issuedCount ⟨false, 0⟩
        [FrameOp.trigger, FrameOp.trigger, FrameOp.trigger] ≤ 1 :=
  ⟨frame_request_coalescing.1
      [FrameOp.trigger, FrameOp.trigger, FrameOp.fire, FrameOp.trigger],
   frame_request_coalescing.2.2 ⟨false, 0⟩
      [FrameOp.trigger, FrameOp.trigger, FrameOp.trigger] (by decide)⟩
